import Mathlib

/-!
Shallow embedding of the BitAuction Hyperledger Fabric chaincode: the auction
smart contract (package bitAuction/auction), its older chaincode-go variant
(package auction in chaincode-go/smart-contract), and the NTP time-oracle
chaincode (src/timeoracle/timeoracle.go).

Modelling conventions:
* Go time.Time instants are Int nanoseconds on the UTC timeline; t.Before(u)
  is t < u and t.After(u) is u < t.
* The Fabric world state is an association list from keys to decoded values;
  JSON marshal/unmarshal round-trips, so values are stored structurally.
  Reading a value of the wrong shape is modelled as an unmarshal failure.
* Ledger writes may fail: PutState is modelled with an injected failure
  predicate on keys.  An operation returning Except.error aborts its
  transaction, so the pre-state is unchanged.
* time.Now() and the caller identity are fields of an explicit call context.
* Go int fields hold prices and never approach overflow in the contract; they
  are modelled as Int.
-/

namespace HLF

/-- Fabric world-state keys: plain keys and composite keys built by
CreateCompositeKey from a kind and parts.  Composite keys never collide with
plain keys because Fabric embeds a reserved separator byte. -/
inductive LKey where
  | plain (id : String)
  | comp (kind : String) (parts : List String)
deriving DecidableEq, Repr

/-- FullBid (auction.go): a revealed bid. -/
structure FullBid where
  type : String
  price : Int
  org : String
  bidder : String
  valid : Bool
  timestamp : Int
deriving DecidableEq, Repr

/-- Auction (auction.go): the auction record. -/
structure Auction where
  auctionID : String
  type : String
  itemSold : String
  seller : String
  orgs : List String
  winner : String
  price : Int
  status : String
  timelimit : Int
  description : String
  pictureURL : String
  bids : List FullBid
deriving DecidableEq, Repr

/-- Decoded world-state values of the auction chaincodes. -/
inductive LVal where
  | auctionV (a : Auction)
  | priceV (p : Int)
  | fullBidV (b : FullBid)
deriving DecidableEq, Repr

/-- World state of an auction chaincode. -/
abbrev Ledger := List (LKey × LVal)

/-- GetState: first value stored under the key. -/
def lget : Ledger → LKey → Option LVal
  | [], _ => none
  | kv :: rest, k => if kv.1 = k then some kv.2 else lget rest k

/-- PutState: replace the value under the key, or append a fresh entry. -/
def lput : Ledger → LKey → LVal → Ledger
  | [], k, v => [(k, v)]
  | kv :: rest, k, v =>
    if kv.1 = k then (k, v) :: rest else kv :: lput rest k v

/-- PutState with an injected failure predicate: stub.PutState may return an
error, in which case nothing is written. -/
def putStateE (fail : LKey → Bool) (st : Ledger) (k : LKey) (v : LVal) :
    Except String Ledger :=
  if fail k then Except.error "put failed" else Except.ok (lput st k v)

/-- Caller-side context of one chaincode invocation: the decoded client
identity (GetSubmittingClientIdentity), the MSP id (GetMSPID), the transaction
id (GetTxID) and the current wall-clock instant (time.Now().UTC()). -/
structure Ctx where
  clientID : String
  mspID : String
  txID : String
  now : Int
deriving Repr

/-! ### Civil time arithmetic (model of the Go time package conversions) -/

/-- Days from 1970-01-01 of a proleptic-Gregorian civil date (the standard
civil-from-days inverse; matches Go time package date arithmetic). -/
def daysFromCivil (y m d : Int) : Int :=
  let y2 := if m ≤ 2 then y - 1 else y
  let era := Int.fdiv y2 400
  let yoe := y2 - era * 400
  let mp := Int.fmod (m + 9) 12
  let doy := Int.fdiv (153 * mp + 2) 5 + d - 1
  let doe := yoe * 365 + Int.fdiv yoe 4 - Int.fdiv yoe 100 + doy
  era * 146097 + doe - 719468

/-- UTC instant, in nanoseconds since 1970-01-01, of broken-down civil parts
with a zone offset in seconds. -/
def instantOfParts (y mo da h mi s ns off : Int) : Int :=
  (daysFromCivil y mo da * 86400 + h * 3600 + mi * 60 + s - off) * 1000000000 + ns

/-- Split a character list at every occurrence of the separator (model of Go
strings.Split restricted to one-character separators, on decoded runes). -/
def splitChars (sep : Char) : List Char → List (List Char)
  | [] => [[]]
  | c :: rest =>
    match splitChars sep rest with
    | [] => if c = sep then [[], []] else [[c]]
    | g :: gs => if c = sep then [] :: g :: gs else (c :: g) :: gs

/-- Decimal value of a digit character. -/
def digitVal (c : Char) : Nat := c.toNat - 48

/-- Is the character a decimal digit. -/
def isDigitChar (c : Char) : Bool := 48 ≤ c.toNat && c.toNat ≤ 57

/-- Parse a nonempty all-digit character list as a natural number. -/
def natOfChars? (cs : List Char) : Option Nat :=
  if cs ≠ [] ∧ cs.all isDigitChar then
    some (cs.foldl (fun n c => n * 10 + digitVal c) 0)
  else none

/-- Parse "yyyy-mm-dd". -/
def parseDate (cs : List Char) : Option (Int × Int × Int) :=
  match splitChars '-' cs with
  | [ys, ms, ds] => do
    let y ← natOfChars? ys
    let m ← natOfChars? ms
    let d ← natOfChars? ds
    pure ((y : Int), (m : Int), (d : Int))
  | _ => none

/-- Fractional-second digits to nanoseconds (at most nine digits). -/
def nanosOfFrac (frac : List Char) : Option Int :=
  if 9 < frac.length then none
  else do
    let n ← natOfChars? frac
    pure ((n * 10 ^ (9 - frac.length) : Nat) : Int)

/-- Parse "hh:mm:ss" or "hh:mm:ss.fraction". -/
def parseClock (cs : List Char) : Option (Int × Int × Int × Int) :=
  match splitChars ':' cs with
  | [hs, ms, ss] => do
    let h ← natOfChars? hs
    let mi ← natOfChars? ms
    match splitChars '.' ss with
    | [sec] => do
      let se ← natOfChars? sec
      pure ((h : Int), (mi : Int), (se : Int), (0 : Int))
    | [sec, frac] => do
      let se ← natOfChars? sec
      let ns ← nanosOfFrac frac
      pure ((h : Int), (mi : Int), (se : Int), ns)
    | _ => none
  | _ => none

/-- Parse a numeric zone of the form "+hhmm" or "-hhmm" to an offset in
seconds (the "-0700" element of a Go layout). -/
def parseZoneHHMM (cs : List Char) : Option Int :=
  match cs with
  | sc :: rest =>
    let sign : Option Int :=
      if sc = '+' then some 1 else if sc = '-' then some (-1) else none
    match sign with
    | none => none
    | some sg =>
      if rest.length = 4 then do
        let hh ← natOfChars? (rest.take 2)
        let mm ← natOfChars? (rest.drop 2)
        pure (sg * ((hh : Int) * 3600 + (mm : Int) * 60))
      else none
  | [] => none

/-- Model of Go time.Parse with layout
"2006-01-02 15:04:05.999999999 -0700 MST" (the format the auction contracts
use for oracle timestamps), yielding the parsed UTC instant. -/
def parseTimestamp (s : String) : Option Int :=
  match splitChars ' ' s.data with
  | [d, t, z, _zoneName] => do
    let (y, mo, da) ← parseDate d
    let (h, mi, se, ns) ← parseClock t
    let off ← parseZoneHHMM z
    pure (instantOfParts y mo da h mi se ns off)
  | _ => none

/-- Parse a zone of the form "hh:mm" to an offset in seconds. -/
def parseZoneColon (cs : List Char) : Option Int :=
  match splitChars ':' cs with
  | [hh, mm] => do
    let h ← natOfChars? hh
    let m ← natOfChars? mm
    pure ((h : Int) * 3600 + (m : Int) * 60)
  | _ => none

/-- Model of Go time.Parse with layout time.RFC3339Nano (used by
CreateAuction for the time limit). -/
def parseRFC3339 (s : String) : Option Int :=
  match splitChars 'T' s.data with
  | [d, rest] => do
    let (y, mo, da) ← parseDate d
    let (clock, off) ←
      (if rest.getLast? = some 'Z' then
        some (rest.dropLast, (0 : Int))
      else
        match splitChars '+' rest with
        | [c, z] => (parseZoneColon z).map (fun o => (c, o))
        | [c] =>
          match splitChars '-' c with
          | [c2, z] => (parseZoneColon z).map (fun o => (c2, -o))
          | _ => none
        | _ => none)
    let (h, mi, se, ns) ← parseClock clock
    pure (instantOfParts y mo da h mi se ns off)
  | _ => none

/-! ### Hashing and shuffling (auctionUtils.go) -/

/-- Bytes of a string as hashed by crc32.ChecksumIEEE, via code points; this
agrees with Go's UTF-8 bytes on ASCII input (all ids in this system). -/
def strBytes (s : String) : List Nat :=
  s.data.map Char.toNat

/-- One byte step of CRC-32 with the reflected IEEE polynomial 0xEDB88320
(model of Go hash/crc32). -/
def crc32Byte (crc b : Nat) : Nat :=
  (List.range 8).foldl
    (fun c _ => if c % 2 = 1 then (c / 2) ^^^ 0xEDB88320 else c / 2)
    (crc ^^^ b % 256)

/-- CRC-32 checksum (IEEE), model of crc32.ChecksumIEEE. -/
def crc32 (bytes : List Nat) : Nat :=
  (bytes.foldl crc32Byte 0xFFFFFFFF) ^^^ 0xFFFFFFFF

/-- encodeValue (auctionUtils.go): hash the txID to a value between 1 and 10
via crc32. -/
def encodeValue (value : String) : Int :=
  ((crc32 (strBytes value) % 10 + 1 : Nat) : Int)

/-- Iterated Lehmer step used as the drawn-number stream of the seeded
generator. -/
def lcgIter : Nat → Nat → Nat
  | 0, x => x
  | n + 1, x => lcgIter n (x * 48271 % 2147483647)

/-- Modelled from the spec: rand.Seed(seed) followed by draws from Go's
global math/rand generator is library code outside this repository; the
seeded stream is modelled as a deterministic Lehmer stream of the seed.  The
development only uses that the stream is a pure function of the seed and that
shuffling a one-element list performs no swaps, which hold for any stream. -/
def randDraw (seed : Int) (i : Nat) : Nat :=
  lcgIter (i + 1) (seed.natAbs % 2147483647 + 1)

/-- Fisher-Yates downward shuffle as performed by Go rand.Shuffle: for
i = n-1 .. 1, swap element i with a drawn j in 0 .. i. -/
def shuffleGo (seed : Int) (l : List String) : List String :=
  let n := l.length
  ((List.range (n - 1)).foldl
    (fun (arr : Array String) step =>
      let i := n - 1 - step
      let j := randDraw seed step % (i + 1)
      if hi : i < arr.size then
        if hj : j < arr.size then arr.swap ⟨i, hi⟩ ⟨j, hj⟩ else arr
      else arr)
    l.toArray).toList

/-- shuffleTimestamps (auctionUtils.go): seed the generator with the encoded
txID, shuffle a copy of the timestamps, return element 0.  The Go code would
panic on an empty list; it is never called on one, and the model returns ""
there. -/
def shuffleTimestamps (timestamps : List String) (encodedValue : Int) : String :=
  (shuffleGo encodedValue timestamps).headD ""

/-! ### Shared queries (identical in both auction packages) -/

/-- QueryAuction (auctionQueries.go): read and unmarshal the auction record.
The GetState error branch of the stub is not reachable in the in-memory
model; a missing record yields the "auction does not exist" error. -/
def QueryAuction (st : Ledger) (aid : String) : Except String Auction :=
  match lget st (LKey.plain aid) with
  | none => Except.error "auction does not exist"
  | some (LVal.auctionV a) => Except.ok a
  | some _ => Except.error "failed to unmarshal auction"

/-- isAuctionOpenForBidding (auctionQueries.go): the status must be "open"
and the time limit must not lie strictly before now. -/
def isAuctionOpenForBidding (a : Auction) (now : Int) : Except String Unit :=
  if a.status ≠ "open" then Except.error "auction is not open for bidding"
  else if a.timelimit < now then Except.error "auction has already ended"
  else Except.ok ()

/-- The hard-coded timestamp string RecordTimeFromOracle returns. -/
def oracleTimeString : String := "2025-06-25 19:59:59.31560409 +0000 UTC"

/-- The UTC instant the hard-coded timestamp string parses to. -/
def oracleNanos : Int := 1750881599315604090

namespace BitAuction

/-- RecordTimeFromOracle (bitAuction/auction/auction.go): the entire oracle
invocation is commented out in the source; the function ignores its context
and transaction id and returns the hard-coded timestamp string
"2025-06-25 19:59:59.31560409 +0000 UTC" with a nil error. -/
def RecordTimeFromOracle (_txID : String) : Except String String :=
  Except.ok oracleTimeString

/-- The fresh auction record CreateAuction writes. -/
def newAuction (c : Ctx) (auctionID itemsold : String) (t : Int)
    (description pictureUrl : String) : Auction :=
  { auctionID := auctionID, type := "auction", itemSold := itemsold
    price := 0, seller := c.clientID, orgs := [c.mspID], winner := ""
    status := "open", timelimit := t, description := description
    pictureURL := pictureUrl, bids := [] }

/-- CreateAuction (bitAuction/auction/auction.go): parse the time limit,
write a fresh open auction record under auctionID with the caller as seller.
The state-based endorsement request is delegated to the platform policy
engine and modelled as a success.  The source performs no existence check on
auctionID before the write. -/
def CreateAuction (fail : LKey → Bool) (c : Ctx) (st : Ledger)
    (auctionID itemsold timelimit description pictureUrl : String) :
    Except String Ledger :=
  match parseRFC3339 timelimit with
  | none => Except.error "invalid datetime format"
  | some t =>
    let auction : Auction := newAuction c auctionID itemsold t description pictureUrl
    match putStateE fail st (LKey.plain auctionID) (LVal.auctionV auction) with
    | Except.error e => Except.error ("failed to put auction in public data: " ++ e)
    | Except.ok st2 => Except.ok st2

/-- Bid (bitAuction/auction/auction.go): check the auction is open, then
store the price placeholder under the composite key (bid, auctionID, txID).
The source assigns the PutState error to err and ignores it, returning the
transaction id with a nil error. -/
def Bid (fail : LKey → Bool) (c : Ctx) (st : Ledger) (auctionID : String)
    (price : Int) : Except String (String × Ledger) :=
  match QueryAuction st auctionID with
  | Except.error e => Except.error ("failed to get auction: " ++ e)
  | Except.ok auction =>
    match isAuctionOpenForBidding auction c.now with
    | Except.error e => Except.error e
    | Except.ok _ =>
      let txID := c.txID
      let bidKey := LKey.comp "bid" [auctionID, txID]
      match putStateE fail st bidKey (LVal.priceV price) with
      | Except.ok st2 => Except.ok (txID, st2)
      | Except.error _ => Except.ok (txID, st)

/-- SubmitBid (bitAuction/auction/auction.go): reveal the placeholder bid
into a FullBid stored under the composite key (fullbid, auctionID, txID). -/
def SubmitBid (fail : LKey → Bool) (c : Ctx) (st : Ledger)
    (auctionID txID : String) : Except String Ledger :=
  match QueryAuction st auctionID with
  | Except.error e => Except.error ("failed to get auction: " ++ e)
  | Except.ok auction =>
    match isAuctionOpenForBidding auction c.now with
    | Except.error e => Except.error e
    | Except.ok _ =>
      let bidder := c.clientID
      let org := c.mspID
      match lget st (LKey.comp "bid" [auctionID, txID]) with
      | none => Except.error "bid not found in public state"
      | some (LVal.priceV price) =>
        if price ≤ 0 then Except.error "invalid bid amount"
        else
          match RecordTimeFromOracle txID with
          | Except.error e => Except.error ("failed to read timestamp from state: " ++ e)
          | Except.ok body =>
            if body.length = 0 then
              Except.error "no timestamp found for transaction ID"
            else
              let encodedValue := encodeValue txID
              let shuffled := shuffleTimestamps [body] encodedValue
              match parseTimestamp shuffled with
              | none => Except.error "failed to parse timestamp"
              | some ts =>
                let fullBid : FullBid :=
                  { type := "bid", price := price, org := org, bidder := bidder
                    valid := true, timestamp := ts }
                match putStateE fail st (LKey.comp "fullbid" [auctionID, txID])
                    (LVal.fullBidV fullBid) with
                | Except.error e => Except.error ("failed to put full bid in state: " ++ e)
                | Except.ok st2 => Except.ok st2
      | some _ => Except.error "failed to unmarshal bid"

/-- Entry selector for QueryBids: keys of the form (fullbid, auctionID, ...). -/
def fullBidKeyFor (aid : String) (k : LKey) : Bool :=
  match k with
  | LKey.comp kind (a :: _) => kind = "fullbid" && a = aid
  | _ => false

/-- QueryBids (bitAuction/auction/auctionQueries.go): iterate the composite
keys (fullbid, auctionID, ...) and unmarshal each stored FullBid. -/
def QueryBids : Ledger → String → Except String (List FullBid)
  | [], _ => Except.ok []
  | kv :: st, aid =>
    if fullBidKeyFor aid kv.1 then
      match kv.2 with
      | LVal.fullBidV b => (QueryBids st aid).map (fun bs => b :: bs)
      | _ => Except.error "failed to unmarshal full bid"
    else QueryBids st aid

/-- isHigherBid (bitAuction/auction/auctionQueries.go).  The nil guard of the
source never fires: GetHb always passes the current highest bid by value. -/
def isHigherBid (bid highest : FullBid) (winnerTime : Int) : Bool :=
  if highest.price < bid.price then true
  else if bid.price = highest.price ∧ bid.timestamp < winnerTime then true
  else false

/-- One comparison step of the GetHb loop. -/
def selectHigher (highest bid : FullBid) : FullBid :=
  if isHigherBid bid highest highest.timestamp then bid else highest

/-- GetHb (bitAuction/auction/auctionQueries.go): fold the stored bids,
starting from bids[0], keeping the bid that isHigherBid prefers. -/
def GetHb (st : Ledger) (aid : String) : Except String (Option FullBid) :=
  match QueryBids st aid with
  | Except.error e => Except.error e
  | Except.ok bids =>
    match bids with
    | [] => Except.ok none
    | b0 :: _ => Except.ok (some (bids.foldl selectHigher b0))

/-- The ended record EndAuction writes: with no highest bid the winner is ""
and the price 0, otherwise the highest bid's bidder and price. -/
def endedAuction (a : Auction) (hb : Option FullBid) : Auction :=
  match hb with
  | none => { a with winner := "", price := 0, status := "ended" }
  | some b => { a with winner := b.bidder, price := b.price, status := "ended" }

/-- EndAuction (bitAuction/auction/auction.go): seller-only, requires the
time limit to have passed and the status not to be "ended"; resolves the
winner from the stored FullBids and persists the ended record. -/
def EndAuction (fail : LKey → Bool) (c : Ctx) (st : Ledger) (aid : String) :
    Except String Ledger :=
  match QueryAuction st aid with
  | Except.error e => Except.error ("failed to get auction from public state " ++ e)
  | Except.ok auction =>
    if auction.seller ≠ c.clientID then
      Except.error "Auction can only be ended by the seller"
    else if c.now < auction.timelimit then
      Except.error "Cannot end auction before time limit has passed"
    else if auction.status = "ended" then
      Except.error "auction has already been ended"
    else
      match GetHb st aid with
      | Except.error e => Except.error ("failed to get highest bid: " ++ e)
      | Except.ok hb =>
        let a2 := endedAuction auction hb
        match putStateE fail st (LKey.plain aid) (LVal.auctionV a2) with
        | Except.error e => Except.error ("failed to end auction: " ++ e)
        | Except.ok st2 => Except.ok st2

end BitAuction

namespace CGo

/-- SubmitBid (chaincode-go/smart-contract/auction.go): unlike the bitAuction
variant it checks only the status (no time-limit check), and it appends the
revealed bid to the Bids array of the auction record itself.  The
RecordTimeFromOracle result (a cross-chaincode invocation of the time
oracle) is passed in as oracleBody. -/
def SubmitBid (fail : LKey → Bool) (c : Ctx) (st : Ledger)
    (auctionID txID : String) (oracleBody : Except String String) :
    Except String Ledger :=
  match QueryAuction st auctionID with
  | Except.error e => Except.error ("failed to get auction: " ++ e)
  | Except.ok auction =>
    if auction.status ≠ "open" then Except.error "auction is not open for bidding"
    else
      let bidder := c.clientID
      let org := c.mspID
      match lget st (LKey.comp "bid" [auctionID, txID]) with
      | none => Except.error "bid not found in public state"
      | some (LVal.priceV price) =>
        if price ≤ 0 then Except.error "invalid bid amount"
        else
          match oracleBody with
          | Except.error e => Except.error ("failed to read timestamp from state: " ++ e)
          | Except.ok body =>
            if body.length = 0 then
              Except.error "no timestamp found for transaction ID"
            else
              let shuffled := shuffleTimestamps [body] (encodeValue txID)
              match parseTimestamp shuffled with
              | none => Except.error "failed to parse timestamp"
              | some ts =>
                let bid : FullBid :=
                  { type := "bid", price := price, org := org, bidder := bidder
                    valid := true, timestamp := ts }
                let a2 := { auction with bids := auction.bids ++ [bid] }
                match putStateE fail st (LKey.plain auctionID) (LVal.auctionV a2) with
                | Except.error e => Except.error ("failed to update auction: " ++ e)
                | Except.ok st2 => Except.ok st2
      | some _ => Except.error "failed to unmarshal bid"

/-- CloseAuction (chaincode-go/smart-contract/auction.go): seller-only,
requires status "open", transitions to "closed" without touching winner or
price. -/
def CloseAuction (fail : LKey → Bool) (c : Ctx) (st : Ledger) (aid : String) :
    Except String Ledger :=
  match QueryAuction st aid with
  | Except.error e => Except.error ("failed to get auction from public state " ++ e)
  | Except.ok auction =>
    if auction.seller ≠ c.clientID then
      Except.error "auction can only be closed by seller"
    else if auction.status ≠ "open" then
      Except.error "cannot close auction that is not open"
    else
      match putStateE fail st (LKey.plain aid)
          (LVal.auctionV { auction with status := "closed" }) with
      | Except.error e => Except.error ("failed to close auction: " ++ e)
      | Except.ok st2 => Except.ok st2

/-- The winner scan of the chaincode-go EndAuction: walk the Bids array and
keep the first bid whose price strictly exceeds the accumulated price. -/
def winnerScan (a : Auction) : Auction :=
  a.bids.foldl
    (fun acc bid =>
      if acc.price < bid.price then
        { acc with winner := bid.bidder, price := bid.price }
      else acc)
    a

/-- EndAuction (chaincode-go/smart-contract/auction.go): seller-only; the
status check is commented out in the source and there is no time-limit
check; requires at least one bid in the Bids array; scans the array keeping
the first maximal price. -/
def EndAuction (fail : LKey → Bool) (c : Ctx) (st : Ledger) (aid : String) :
    Except String Ledger :=
  match QueryAuction st aid with
  | Except.error e => Except.error ("failed to get auction from public state " ++ e)
  | Except.ok auction =>
    if auction.seller ≠ c.clientID then
      Except.error "auction can only be ended by seller"
    else if auction.bids = [] then
      Except.error "no bids have been placed, cannot end auction"
    else
      let a2 := winnerScan auction
      match putStateE fail st (LKey.plain aid)
          (LVal.auctionV { a2 with status := "ended" }) with
      | Except.error e => Except.error ("failed to end auction: " ++ e)
      | Except.ok st2 => Except.ok st2

end CGo

namespace TimeOracle

/-- World state of the time-oracle chaincode (its own namespace): txID to
cached timestamp string. -/
abbrev OStore := List (String × String)

/-- GetState of the oracle's world state. -/
def oget : OStore → String → Option String
  | [], _ => none
  | kv :: rest, k => if kv.1 = k then some kv.2 else oget rest k

/-- PutState of the oracle's world state. -/
def oput : OStore → String → String → OStore
  | [], k, v => [(k, v)]
  | kv :: rest, k, v =>
    if kv.1 = k then (k, v) :: rest else kv :: oput rest k v

/-- GetTimeNtp (timeoracle.go).  ntpResults is the list of successful
source timestamps produced by the ntpQueryLoop fan-out (already rendered as
Go time.Time.String() strings, in fan-in order); k is the number drawn from
the global math/rand generator by rand.Intn, so the selected index is
k % length.  A cached txID is answered directly from state without querying
any source; with no cached entry and zero successes the call fails and
writes nothing; fail injects PutState failures. -/
def GetTimeNtp (fail : String → Bool) (st : OStore) (txID : String)
    (ntpResults : List String) (k : Nat) : Except String (String × OStore) :=
  match oget st txID with
  | some existing => Except.ok (existing, st)
  | none =>
    match ntpResults with
    | [] => Except.error "Failed to get response from NTP servers, see log file"
    | r0 :: _ =>
      let accurate := ntpResults.getD (k % ntpResults.length) r0
      if fail txID then Except.error "failed to save timestamp"
      else Except.ok (accurate, oput st txID accurate)

end TimeOracle


/-! ### Derived notions used by the verification -/

/-- The strict preference order realized by isHigherBid when called as in the
GetHb loop: strictly higher price, or equal price and strictly earlier
timestamp. -/
def Better (b r : FullBid) : Prop :=
  r.price < b.price ∨ (b.price = r.price ∧ b.timestamp < r.timestamp)

/-- The timestamp GetTimeNtp selects from the successful results, given the
number k drawn by rand.Intn: element k mod length. -/
def selectedOf (res : List String) (k : Nat) : String :=
  res.getD (k % res.length) ""

/-- Forward progress order of auction statuses. -/
def statusRank (s : String) : Nat :=
  if s = "ended" then 2 else if s = "closed" then 1 else 0

/-- The auction record stored under a plain auction id, when one is there. -/
def lookupAuction (st : Ledger) (aid : String) : Option Auction :=
  match lget st (LKey.plain aid) with
  | some (LVal.auctionV a) => some a
  | _ => none

/-- Between two states: every auction record present in both has advanced
its status monotonically, and an "ended" record is unchanged. -/
def PreservesAuctions (st st2 : Ledger) : Prop :=
  ∀ aid a a2, lookupAuction st aid = some a → lookupAuction st2 aid = some a2 →
    statusRank a.status ≤ statusRank a2.status ∧ (a.status = "ended" → a2 = a)

/-- One successful state-mutating operation of the bitAuction contract.  The
create step carries the freshness condition that no record is already stored
under the auction id.  Query operations and RecordTimeFromOracle perform no
writes. -/
inductive BitStep : Ledger → Ledger → Prop where
  | create (fail : LKey → Bool) (c : Ctx) (st st2 : Ledger)
      (aid item tl desc pic : String) :
      lget st (LKey.plain aid) = none →
      BitAuction.CreateAuction fail c st aid item tl desc pic = Except.ok st2 →
      BitStep st st2
  | bid (fail : LKey → Bool) (c : Ctx) (st st2 : Ledger)
      (aid : String) (price : Int) (t : String) :
      BitAuction.Bid fail c st aid price = Except.ok (t, st2) →
      BitStep st st2
  | submit (fail : LKey → Bool) (c : Ctx) (st st2 : Ledger)
      (aid txID : String) :
      BitAuction.SubmitBid fail c st aid txID = Except.ok st2 →
      BitStep st st2
  | endA (fail : LKey → Bool) (c : Ctx) (st st2 : Ledger) (aid : String) :
      BitAuction.EndAuction fail c st aid = Except.ok st2 →
      BitStep st st2

/-! ### Concrete data used by witnesses and counterexamples -/

/-- No ledger write fails. -/
def f0 : LKey → Bool := fun _ => false

/-- Every ledger write fails. -/
def fT : LKey → Bool := fun _ => true

/-- No oracle-store write fails. -/
def of0 : String → Bool := fun _ => false

/-- The seller's call context. -/
def ctx1 : Ctx := { clientID := "user1", mspID := "Org1MSP", txID := "tx1", now := 0 }

/-- A non-seller call context. -/
def ctx2 : Ctx := { clientID := "mallory", mspID := "Org2MSP", txID := "tx2", now := 0 }

/-- The seller's call context with a distinct transaction id. -/
def ctxSeller : Ctx := { clientID := "user1", mspID := "Org1MSP", txID := "tx9", now := 0 }

/-- An open auction whose time limit is in the future. -/
def auctionOpen : Auction :=
  { auctionID := "a1", type := "auction", itemSold := "Laptop"
    seller := "user1", orgs := ["Org1MSP"], winner := "", price := 0
    status := "open", timelimit := 1000, description := "", pictureURL := ""
    bids := [] }

/-- An open auction whose time limit has passed. -/
def auctionPast : Auction := { auctionOpen with timelimit := -10 }

/-- A closed auction. -/
def auClosed : Auction := { auctionOpen with status := "closed" }

/-- Stored bids used by the winner-selection witnesses. -/
def bidA : FullBid :=
  { type := "bid", price := 100, org := "Org1MSP", bidder := "userA"
    valid := true, timestamp := 50 }

/-- A 300-price bid with timestamp 60. -/
def bidB : FullBid := { bidA with price := 300, bidder := "userB", timestamp := 60 }

/-- A 300-price bid with the later timestamp 70. -/
def bidC : FullBid := { bidA with price := 300, bidder := "userC", timestamp := 70 }

/-- The FullBid the concrete SubmitBid runs store. -/
def bid10 : FullBid :=
  { type := "bid", price := 100, org := "Org1MSP", bidder := "user1"
    valid := true, timestamp := oracleNanos }

/-- A ledger holding only the open auction. -/
def stOpen1 : Ledger := [(LKey.plain "a1", LVal.auctionV auctionOpen)]

/-- A ledger holding only the closed auction. -/
def stClosed1 : Ledger := [(LKey.plain "a1", LVal.auctionV auClosed)]

/-- The open auction plus a placeholder bid of price 100 under tx1. -/
def st10 : Ledger :=
  [(LKey.plain "a1", LVal.auctionV auctionOpen),
   (LKey.comp "bid" ["a1", "tx1"], LVal.priceV 100)]

/-- The ledger after the concrete bitAuction SubmitBid run. -/
def st10b : Ledger :=
  [(LKey.plain "a1", LVal.auctionV auctionOpen),
   (LKey.comp "bid" ["a1", "tx1"], LVal.priceV 100),
   (LKey.comp "fullbid" ["a1", "tx1"], LVal.fullBidV bid10)]

/-- An expired auction with three stored FullBids: prices 100, 300, 300 with
timestamps 50, 60, 70. -/
def stBids : Ledger :=
  [(LKey.plain "a1", LVal.auctionV auctionPast),
   (LKey.comp "fullbid" ["a1", "tx1"], LVal.fullBidV bidA),
   (LKey.comp "fullbid" ["a1", "tx2"], LVal.fullBidV bidB),
   (LKey.comp "fullbid" ["a1", "tx3"], LVal.fullBidV bidC)]

/-- The resolved record of the concrete EndAuction run on stBids. -/
def endedA5 : Auction :=
  { auctionPast with winner := "userB", price := 300, status := "ended" }

/-- The ledger after the concrete EndAuction run on stBids. -/
def stEnded1 : Ledger :=
  [(LKey.plain "a1", LVal.auctionV endedA5),
   (LKey.comp "fullbid" ["a1", "tx1"], LVal.fullBidV bidA),
   (LKey.comp "fullbid" ["a1", "tx2"], LVal.fullBidV bidB),
   (LKey.comp "fullbid" ["a1", "tx3"], LVal.fullBidV bidC)]

/-- An ended auction whose re-creation the C5 counterexample exhibits. -/
def auEnded5 : Auction :=
  { auctionOpen with status := "ended", winner := "userB", price := 300 }

/-- A ledger holding only the ended auction. -/
def stEnded5 : Ledger := [(LKey.plain "a1", LVal.auctionV auEnded5)]

/-- An open, unexpired auction with one revealed bid in its Bids array
(chaincode-go style). -/
def auBidsOpen : Auction := { auctionOpen with bids := [bidB] }

/-- A ledger holding the auction with one array bid. -/
def stCg : Ledger := [(LKey.plain "a1", LVal.auctionV auBidsOpen)]

/-- The FullBid the concrete chaincode-go SubmitBid runs append. -/
def bid4 : FullBid := bid10

/-- Ledger for the duplicate-submission counterexample. -/
def st4 : Ledger := st10

/-- After the first chaincode-go SubmitBid: one array bid. -/
def st4b : Ledger :=
  [(LKey.plain "a1", LVal.auctionV { auctionOpen with bids := [bid4] }),
   (LKey.comp "bid" ["a1", "tx1"], LVal.priceV 100)]

/-- After the repeated chaincode-go SubmitBid: a duplicated array bid. -/
def st4c : Ledger :=
  [(LKey.plain "a1", LVal.auctionV { auctionOpen with bids := [bid4, bid4] }),
   (LKey.comp "bid" ["a1", "tx1"], LVal.priceV 100)]

/-- An oracle store with one cached timestamp. -/
def cached1 : TimeOracle.OStore :=
  [("tx1", "2024-12-25 15:30:45.123456789 +0000 UTC")]

/-! ### Basic store lemmas -/

theorem lget_lput_self (st : Ledger) (k : LKey) (v : LVal) :
    lget (lput st k v) k = some v := by
  induction st with
  | nil => simp [lput, lget]
  | cons kv rest ih =>
    by_cases h : kv.1 = k
    · simp [lput, lget, h]
    · simp [lput, lget, h, ih]

theorem lget_lput_ne (st : Ledger) (k k2 : LKey) (v : LVal) (h : k2 ≠ k) :
    lget (lput st k v) k2 = lget st k2 := by
  induction st with
  | nil => simp [lput, lget, Ne.symm h]
  | cons kv rest ih =>
    by_cases hk : kv.1 = k
    · have hne : ¬ k = k2 := Ne.symm h
      simp [lput, lget, hk, hne]
    · by_cases hk2 : kv.1 = k2
      · simp [lput, lget, hk, hk2, h]
      · simp [lput, lget, hk, hk2, ih]

theorem lput_lput_same (st : Ledger) (k : LKey) (v : LVal) :
    lput (lput st k v) k v = lput st k v := by
  induction st with
  | nil => simp [lput]
  | cons kv rest ih =>
    by_cases h : kv.1 = k
    · simp [lput, h]
    · simp [lput, h, ih]

theorem oget_oput_self (st : TimeOracle.OStore) (k v : String) :
    TimeOracle.oget (TimeOracle.oput st k v) k = some v := by
  induction st with
  | nil => simp [TimeOracle.oput, TimeOracle.oget]
  | cons kv rest ih =>
    by_cases h : kv.1 = k
    · simp [TimeOracle.oput, TimeOracle.oget, h]
    · simp [TimeOracle.oput, TimeOracle.oget, h, ih]

/-! ### Shuffle and oracle-constant lemmas -/

theorem shuffleTimestamps_singleton (x : String) (seed : Int) :
    shuffleTimestamps [x] seed = x := by
  simp [shuffleTimestamps, shuffleGo]

theorem parse_oracleTimeString : parseTimestamp oracleTimeString = some oracleNanos := by
  decide

theorem oracleTimeString_length : oracleTimeString.length = 38 := by
  decide

/-! ### Winner-selection lemmas (GetHb) -/

theorem isHigherBid_true_iff (b h : FullBid) :
    BitAuction.isHigherBid b h h.timestamp = true ↔ Better b h := by
  simp only [BitAuction.isHigherBid, Better]
  split_ifs with h1 h2 <;> simp_all

theorem better_trans {a b c : FullBid} : Better a b → Better b c → Better a c := by
  simp only [Better]; omega

theorem better_irrefl (a : FullBid) : ¬ Better a a := by
  simp only [Better]; omega

theorem selectHigher_cases (h b : FullBid) :
    BitAuction.selectHigher h b = b ∨ BitAuction.selectHigher h b = h := by
  unfold BitAuction.selectHigher
  split_ifs <;> simp

theorem foldl_selectHigher_mem (l : List FullBid) (h : FullBid) :
    l.foldl BitAuction.selectHigher h = h ∨ l.foldl BitAuction.selectHigher h ∈ l := by
  induction l generalizing h with
  | nil => left; rfl
  | cons b l ih =>
    simp only [List.foldl_cons]
    rcases ih (BitAuction.selectHigher h b) with heq | hmem
    · rcases selectHigher_cases h b with h1 | h1
      · right; rw [heq, h1]; exact List.mem_cons_self _ _
      · left; rw [heq, h1]
    · right; exact List.mem_cons_of_mem _ hmem

theorem foldl_selectHigher_best (l : List FullBid) (h : FullBid) :
    ¬ Better h (l.foldl BitAuction.selectHigher h) ∧
    ∀ b ∈ l, ¬ Better b (l.foldl BitAuction.selectHigher h) := by
  induction l generalizing h with
  | nil => exact ⟨better_irrefl h, by simp⟩
  | cons b l ih =>
    simp only [List.foldl_cons]
    obtain ⟨ih1, ih2⟩ := ih (BitAuction.selectHigher h b)
    by_cases hc : BitAuction.isHigherBid b h h.timestamp = true
    · have hbh : Better b h := (isHigherBid_true_iff b h).mp hc
      have hsel : BitAuction.selectHigher h b = b := by
        simp [BitAuction.selectHigher, hc]
      rw [hsel] at ih1 ih2 ⊢
      refine ⟨fun hhr => ih1 (better_trans hbh hhr), ?_⟩
      intro x hx
      rcases List.mem_cons.mp hx with rfl | hx2
      · exact ih1
      · exact ih2 x hx2
    · have hbh : ¬ Better b h := fun hb => hc ((isHigherBid_true_iff b h).mpr hb)
      have hsel : BitAuction.selectHigher h b = h := by
        simp only [BitAuction.selectHigher]
        rw [if_neg (by simpa using hc)]
      rw [hsel] at ih1 ih2 ⊢
      refine ⟨ih1, ?_⟩
      intro x hx
      rcases List.mem_cons.mp hx with rfl | hx2
      · simp only [Better] at ih1 hbh ⊢; omega
      · exact ih2 x hx2

/-! ### Characterization of the operations -/

theorem submitBid_ok_iff (fail : LKey → Bool) (c : Ctx) (st : Ledger)
    (aid txID : String) (st2 : Ledger) :
    BitAuction.SubmitBid fail c st aid txID = Except.ok st2 ↔
    ∃ a p, QueryAuction st aid = Except.ok a ∧
      a.status = "open" ∧ ¬ a.timelimit < c.now ∧
      lget st (LKey.comp "bid" [aid, txID]) = some (LVal.priceV p) ∧
      ¬ p ≤ 0 ∧ fail (LKey.comp "fullbid" [aid, txID]) = false ∧
      st2 = lput st (LKey.comp "fullbid" [aid, txID]) (LVal.fullBidV
        { type := "bid", price := p, org := c.mspID, bidder := c.clientID
          valid := true, timestamp := oracleNanos }) := by
  unfold BitAuction.SubmitBid
  constructor
  · intro h
    cases hqa : QueryAuction st aid with
    | error e => rw [hqa] at h; cases h
    | ok a =>
      rw [hqa] at h
      by_cases hs : a.status = "open"
      · by_cases ht : a.timelimit < c.now
        · simp [isAuctionOpenForBidding, hs, ht] at h
        · simp only [isAuctionOpenForBidding, hs, ht, ne_eq, not_true_eq_false,
            if_false, ite_false, ite_true, not_false_eq_true] at h
          cases hb : lget st (LKey.comp "bid" [aid, txID]) with
          | none => rw [hb] at h; cases h
          | some v =>
            rw [hb] at h
            cases v with
            | priceV p =>
              dsimp only at h
              by_cases hp : p ≤ 0
              · rw [if_pos hp] at h; cases h
              · rw [if_neg hp] at h
                simp only [BitAuction.RecordTimeFromOracle] at h
                rw [if_neg (by decide : ¬ oracleTimeString.length = 0)] at h
                rw [shuffleTimestamps_singleton, parse_oracleTimeString] at h
                unfold putStateE at h
                dsimp only at h
                by_cases hf : fail (LKey.comp "fullbid" [aid, txID]) = true
                · rw [hf] at h; simp at h
                · rw [Bool.not_eq_true] at hf
                  rw [hf] at h
                  simp only [Bool.false_eq_true, if_false, ite_false] at h
                  simp at h
                  exact ⟨a, p, rfl, hs, ht, rfl, hp, hf, h.symm⟩
            | auctionV a2 => cases h
            | fullBidV b => cases h
      · simp [isAuctionOpenForBidding, hs] at h
  · rintro ⟨a, p, hqa, hs, ht, hb, hp, hf, rfl⟩
    rw [hqa]
    simp only [isAuctionOpenForBidding, hs, ht, ne_eq, not_true_eq_false,
      ite_false, ite_true, not_false_eq_true]
    rw [hb]
    dsimp only
    rw [if_neg hp]
    simp only [BitAuction.RecordTimeFromOracle]
    rw [if_neg (by decide : ¬ oracleTimeString.length = 0)]
    rw [shuffleTimestamps_singleton, parse_oracleTimeString]
    simp [putStateE, hf]

theorem endAuction_ok_iff (fail : LKey → Bool) (c : Ctx) (st : Ledger)
    (aid : String) (st2 : Ledger) :
    BitAuction.EndAuction fail c st aid = Except.ok st2 ↔
    ∃ a hb, QueryAuction st aid = Except.ok a ∧
      a.seller = c.clientID ∧ ¬ c.now < a.timelimit ∧ a.status ≠ "ended" ∧
      BitAuction.GetHb st aid = Except.ok hb ∧ fail (LKey.plain aid) = false ∧
      st2 = lput st (LKey.plain aid)
        (LVal.auctionV (BitAuction.endedAuction a hb)) := by
  unfold BitAuction.EndAuction
  constructor
  · intro h
    cases hqa : QueryAuction st aid with
    | error e => rw [hqa] at h; cases h
    | ok a =>
      rw [hqa] at h
      dsimp only at h
      by_cases hsell : a.seller = c.clientID
      · by_cases ht : c.now < a.timelimit
        · rw [if_neg (by simp [hsell]), if_pos ht] at h; cases h
        · by_cases hstat : a.status = "ended"
          · rw [if_neg (by simp [hsell]), if_neg ht, if_pos hstat] at h; cases h
          · rw [if_neg (by simp [hsell]), if_neg ht, if_neg hstat] at h
            cases hgb : BitAuction.GetHb st aid with
            | error e => rw [hgb] at h; cases h
            | ok hb =>
              rw [hgb] at h
              dsimp only at h
              unfold putStateE at h
              by_cases hf : fail (LKey.plain aid) = true
              · rw [hf] at h; simp at h
              · rw [Bool.not_eq_true] at hf
                rw [hf] at h
                simp at h
                exact ⟨a, hb, rfl, hsell, ht, hstat, rfl, hf, h.symm⟩
      · rw [if_pos (by simp [hsell])] at h; cases h
  · rintro ⟨a, hb, hqa, hsell, ht, hstat, hgb, hf, rfl⟩
    rw [hqa]
    dsimp only
    rw [if_neg (by simp [hsell]), if_neg ht, if_neg hstat, hgb]
    dsimp only
    simp [putStateE, hf]

theorem bid_ok_state (fail : LKey → Bool) (c : Ctx) (st : Ledger)
    (aid : String) (price : Int) (t : String) (st2 : Ledger) :
    BitAuction.Bid fail c st aid price = Except.ok (t, st2) →
    st2 = st ∨ st2 = lput st (LKey.comp "bid" [aid, c.txID]) (LVal.priceV price) := by
  intro h
  unfold BitAuction.Bid at h
  cases hqa : QueryAuction st aid with
  | error e => rw [hqa] at h; cases h
  | ok a =>
    rw [hqa] at h
    dsimp only at h
    cases hopen : isAuctionOpenForBidding a c.now with
    | error e => rw [hopen] at h; cases h
    | ok u =>
      rw [hopen] at h
      dsimp only at h
      unfold putStateE at h
      by_cases hf : fail (LKey.comp "bid" [aid, c.txID]) = true
      · rw [hf] at h; simp at h; exact Or.inl h.2.symm
      · rw [Bool.not_eq_true] at hf
        rw [hf] at h
        simp at h
        exact Or.inr h.2.symm

theorem createAuction_ok_iff (fail : LKey → Bool) (c : Ctx) (st : Ledger)
    (aid item tl desc pic : String) (st2 : Ledger) :
    BitAuction.CreateAuction fail c st aid item tl desc pic = Except.ok st2 ↔
    ∃ t, parseRFC3339 tl = some t ∧ fail (LKey.plain aid) = false ∧
      st2 = lput st (LKey.plain aid)
        (LVal.auctionV (BitAuction.newAuction c aid item t desc pic)) := by
  unfold BitAuction.CreateAuction
  constructor
  · intro h
    cases hp : parseRFC3339 tl with
    | none => rw [hp] at h; cases h
    | some t =>
      rw [hp] at h
      dsimp only at h
      unfold putStateE at h
      by_cases hf : fail (LKey.plain aid) = true
      · rw [hf] at h; simp at h
      · rw [Bool.not_eq_true] at hf
        rw [hf] at h
        simp at h
        exact ⟨t, rfl, hf, h.symm⟩
  · rintro ⟨t, hp, hf, rfl⟩
    rw [hp]
    dsimp only
    simp [putStateE, hf]

theorem closeAuction_ok_iff (fail : LKey → Bool) (c : Ctx) (st : Ledger)
    (aid : String) (st2 : Ledger) :
    CGo.CloseAuction fail c st aid = Except.ok st2 ↔
    ∃ a, QueryAuction st aid = Except.ok a ∧ a.seller = c.clientID ∧
      a.status = "open" ∧ fail (LKey.plain aid) = false ∧
      st2 = lput st (LKey.plain aid)
        (LVal.auctionV { a with status := "closed" }) := by
  unfold CGo.CloseAuction
  constructor
  · intro h
    cases hqa : QueryAuction st aid with
    | error e => rw [hqa] at h; cases h
    | ok a =>
      rw [hqa] at h
      dsimp only at h
      by_cases hsell : a.seller = c.clientID
      · by_cases hstat : a.status = "open"
        · rw [if_neg (by simp [hsell]), if_neg (by simp [hstat])] at h
          unfold putStateE at h
          by_cases hf : fail (LKey.plain aid) = true
          · rw [hf] at h; simp at h
          · rw [Bool.not_eq_true] at hf
            rw [hf] at h
            simp at h
            exact ⟨a, rfl, hsell, hstat, hf, h.symm⟩
        · rw [if_neg (by simp [hsell]), if_pos (by simp [hstat])] at h; cases h
      · rw [if_pos (by simp [hsell])] at h; cases h
  · rintro ⟨a, hqa, hsell, hstat, hf, rfl⟩
    rw [hqa]
    dsimp only
    rw [if_neg (by simp [hsell]), if_neg (by simp [hstat])]
    simp [putStateE, hf]

theorem cgoEndAuction_ok (fail : LKey → Bool) (c : Ctx) (st : Ledger)
    (aid : String) (a : Auction)
    (hqa : QueryAuction st aid = Except.ok a) (hsell : a.seller = c.clientID)
    (hbids : a.bids ≠ []) (hf : fail (LKey.plain aid) = false) :
    CGo.EndAuction fail c st aid = Except.ok (lput st (LKey.plain aid)
      (LVal.auctionV { CGo.winnerScan a with status := "ended" })) := by
  unfold CGo.EndAuction
  rw [hqa]
  dsimp only
  rw [if_neg (by simp [hsell]), if_neg hbids]
  simp [putStateE, hf]

theorem statusRank_le_two (s : String) : statusRank s ≤ 2 := by
  unfold statusRank
  split_ifs <;> omega

theorem queryAuction_ok_iff (st : Ledger) (aid : String) (a : Auction) :
    QueryAuction st aid = Except.ok a ↔
    lget st (LKey.plain aid) = some (LVal.auctionV a) := by
  unfold QueryAuction
  cases h : lget st (LKey.plain aid) with
  | none => simp
  | some v =>
    cases v with
    | auctionV a2 => simp
    | priceV p => simp
    | fullBidV b => simp

theorem getTimeNtp_fresh (fail : String → Bool) (st : TimeOracle.OStore)
    (id : String) (res : List String) (k : Nat)
    (hg : TimeOracle.oget st id = none) (hres : res ≠ []) (hf : fail id = false) :
    TimeOracle.GetTimeNtp fail st id res k =
      Except.ok (selectedOf res k, TimeOracle.oput st id (selectedOf res k)) := by
  unfold TimeOracle.GetTimeNtp selectedOf
  rw [hg]
  cases res with
  | nil => exact absurd rfl hres
  | cons r0 rest =>
    dsimp only
    rw [hf]
    simp only [Bool.false_eq_true, if_false, ite_false]
    have hlt : k % (r0 :: rest).length < (r0 :: rest).length :=
      Nat.mod_lt _ (by simp)
    rw [List.getD_eq_getElem _ _ hlt, List.getD_eq_getElem _ _ hlt]

theorem append_ne_of_head_ne (c1 c2 : Char) (cs1 s cs2 : List Char)
    (hne : c1 ≠ c2) : c1 :: cs1 ++ s ≠ c2 :: cs2 := by
  intro h
  rw [List.cons_append] at h
  injection h with h1 _
  exact hne h1

theorem endAuction_error_shape (fail : LKey → Bool) (c : Ctx) (st : Ledger)
    (aid : String) (a : Auction) (e : String)
    (hqa : QueryAuction st aid = Except.ok a) (hsell : a.seller = c.clientID)
    (ht : ¬ c.now < a.timelimit) (hstat : a.status ≠ "ended")
    (herr : BitAuction.EndAuction fail c st aid = Except.error e) :
    (∃ e1, e = "failed to get highest bid: " ++ e1) ∨
    e = "failed to end auction: " ++ "put failed" := by
  unfold BitAuction.EndAuction at herr
  rw [hqa] at herr
  dsimp only at herr
  rw [if_neg (by simp [hsell]), if_neg ht, if_neg hstat] at herr
  cases hgb : BitAuction.GetHb st aid with
  | error e1 =>
    rw [hgb] at herr
    dsimp only at herr
    simp at herr
    exact Or.inl ⟨e1, herr.symm⟩
  | ok hb =>
    rw [hgb] at herr
    dsimp only at herr
    unfold putStateE at herr
    by_cases hf : fail (LKey.plain aid) = true
    · rw [hf] at herr
      simp at herr
      exact Or.inr herr.symm
    · rw [Bool.not_eq_true] at hf
      rw [hf] at herr
      simp at herr

/-- C1: for every auction with at least one stored FullBid record, the winner
selection used by GetHb picks a stored bid of maximal price and, among the
stored bids of that maximal price, one of least trusted timestamp; when
EndAuction succeeds, that bid's bidder and price become the stored auction
record's winner and price, and the status becomes "ended". -/
theorem C1_winner_selection (st : Ledger) (aid : String)
    (bids : List FullBid) (w : FullBid)
    (hq : BitAuction.QueryBids st aid = Except.ok bids)
    (hw : BitAuction.GetHb st aid = Except.ok (some w)) :
    (w ∈ bids ∧
      (∀ b ∈ bids, b.price ≤ w.price) ∧
      (∀ b ∈ bids, b.price = w.price → w.timestamp ≤ b.timestamp)) ∧
    (∀ (fail : LKey → Bool) (c : Ctx) (st2 : Ledger),
      BitAuction.EndAuction fail c st aid = Except.ok st2 →
      ∃ a2, lget st2 (LKey.plain aid) = some (LVal.auctionV a2) ∧
        a2.winner = w.bidder ∧ a2.price = w.price ∧ a2.status = "ended") := by
  have hfold : ∃ b0 rest, bids = b0 :: rest ∧
      w = bids.foldl BitAuction.selectHigher b0 := by
    unfold BitAuction.GetHb at hw
    rw [hq] at hw
    dsimp only at hw
    cases bids with
    | nil => simp at hw
    | cons b0 rest =>
      simp at hw
      exact ⟨b0, rest, rfl, hw.symm⟩
  obtain ⟨b0, rest, hbids, hwf⟩ := hfold
  constructor
  · subst hbids
    refine ⟨?_, ?_, ?_⟩
    · rcases foldl_selectHigher_mem (b0 :: rest) b0 with h1 | h1
      · rw [hwf, h1]; exact List.mem_cons_self _ _
      · rw [hwf]; exact h1
    · intro b hb
      have hnb := (foldl_selectHigher_best (b0 :: rest) b0).2 b hb
      rw [← hwf] at hnb
      simp only [Better] at hnb
      omega
    · intro b hb heq
      have hnb := (foldl_selectHigher_best (b0 :: rest) b0).2 b hb
      rw [← hwf] at hnb
      simp only [Better] at hnb
      omega
  · intro fail c st2 hend
    rw [endAuction_ok_iff] at hend
    obtain ⟨a, hb, hqa, _, _, _, hgb, hf, rfl⟩ := hend
    rw [hw] at hgb
    have hhb : hb = some w := by
      injection hgb with h1
      exact h1.symm
    subst hhb
    exact ⟨BitAuction.endedAuction a (some w), lget_lput_self st _ _, rfl, rfl, rfl⟩

/-- C1 witness: on the concrete ledger with bids of prices 100, 300, 300 and
timestamps 50, 60, 70, the selection picks the 300-price bid with timestamp
60, and the concrete EndAuction run persists its bidder and price. -/
theorem C1_winner_selection_witness :
    bidB ∈ [bidA, bidB, bidC] ∧
    BitAuction.EndAuction f0 ctxSeller stBids "a1" = Except.ok stEnded1 :=
  ⟨((C1_winner_selection stBids "a1" [bidA, bidB, bidC] bidB rfl rfl).1).1, rfl⟩

/-- C2: GetTimeNtp is idempotent: a cached requestID is answered with the
identical stored string as a pure read, independent of the source results and
of the generator draw, writing nothing; consequently any call after a
successful call with the same id returns the same string and state. -/
theorem C2_gettimentp_idempotent :
    (∀ (st : TimeOracle.OStore) (id v : String) (fail : String → Bool)
        (res : List String) (k : Nat),
      TimeOracle.oget st id = some v →
      TimeOracle.GetTimeNtp fail st id res k = Except.ok (v, st)) ∧
    (∀ (st st2 : TimeOracle.OStore) (id w : String) (fail fail2 : String → Bool)
        (res res2 : List String) (k k2 : Nat),
      TimeOracle.GetTimeNtp fail st id res k = Except.ok (w, st2) →
      TimeOracle.GetTimeNtp fail2 st2 id res2 k2 = Except.ok (w, st2)) := by
  have cached : ∀ (st : TimeOracle.OStore) (id v : String) (fail : String → Bool)
      (res : List String) (k : Nat),
      TimeOracle.oget st id = some v →
      TimeOracle.GetTimeNtp fail st id res k = Except.ok (v, st) := by
    intro st id v fail res k hc
    unfold TimeOracle.GetTimeNtp
    rw [hc]
  refine ⟨cached, ?_⟩
  intro st st2 id w fail fail2 res res2 k k2 h
  have hc : TimeOracle.oget st2 id = some w ∧ st2 = st2 := by
    unfold TimeOracle.GetTimeNtp at h
    cases hg : TimeOracle.oget st id with
    | some v =>
      rw [hg] at h
      simp at h
      obtain ⟨rfl, rfl⟩ := h
      exact ⟨hg, rfl⟩
    | none =>
      rw [hg] at h
      cases res with
      | nil => cases h
      | cons r0 rest =>
        dsimp only at h
        by_cases hf : fail id = true
        · rw [hf] at h; simp at h
        · rw [Bool.not_eq_true] at hf
          rw [hf] at h
          simp at h
          obtain ⟨rfl, rfl⟩ := h
          exact ⟨oget_oput_self st id _, rfl⟩
  exact cached st2 id w fail2 res2 k2 hc.1

/-- C2 witness: a cached id is answered from the store unchanged. -/
theorem C2_gettimentp_idempotent_witness :
    TimeOracle.GetTimeNtp of0 cached1 "tx1" ["X"] 0 =
      Except.ok ("2024-12-25 15:30:45.123456789 +0000 UTC", cached1) :=
  C2_gettimentp_idempotent.1 cached1 "tx1"
    "2024-12-25 15:30:45.123456789 +0000 UTC" of0 ["X"] 0 rfl

/-- C3 counterexample: with the same requestID and the same ordered
successful results, two different draws of the global math/rand generator
select different timestamps, so the selection is not a pure function of
(requestID, successful results). -/
theorem C3_counterexample :
    ¬ ((TimeOracle.GetTimeNtp of0 [] "tx" ["t1", "t2"] 0).toOption.map Prod.fst =
       (TimeOracle.GetTimeNtp of0 [] "tx" ["t1", "t2"] 1).toOption.map Prod.fst) := by
  decide

/-- C3 amended: with no cached entry and at least one success, GetTimeNtp
selects element (k mod length) of the successful results, where k is the
number drawn from the global math/rand generator: the selection is a pure
function of the ordered successful results and the draw, and is independent
of the requestID and of the prior store. -/
theorem C3_amended_selection :
    (∀ (st : TimeOracle.OStore) (id : String) (res : List String) (k : Nat)
        (fail : String → Bool),
      TimeOracle.oget st id = none → fail id = false → res ≠ [] →
      (TimeOracle.GetTimeNtp fail st id res k).toOption.map Prod.fst =
        some (selectedOf res k)) ∧
    (∀ (st st2 : TimeOracle.OStore) (id id2 : String) (res : List String)
        (k : Nat) (fail fail2 : String → Bool),
      TimeOracle.oget st id = none → TimeOracle.oget st2 id2 = none →
      fail id = false → fail2 id2 = false → res ≠ [] →
      (TimeOracle.GetTimeNtp fail st id res k).toOption.map Prod.fst =
        (TimeOracle.GetTimeNtp fail2 st2 id2 res k).toOption.map Prod.fst) := by
  have sel : ∀ (st : TimeOracle.OStore) (id : String) (res : List String)
      (k : Nat) (fail : String → Bool),
      TimeOracle.oget st id = none → fail id = false → res ≠ [] →
      (TimeOracle.GetTimeNtp fail st id res k).toOption.map Prod.fst =
        some (selectedOf res k) := by
    intro st id res k fail hg hf hres
    rw [getTimeNtp_fresh fail st id res k hg hres hf]
    rfl
  refine ⟨sel, ?_⟩
  intro st st2 id id2 res k fail fail2 hg hg2 hf hf2 hres
  rw [sel st id res k fail hg hf hres, sel st2 id2 res k fail2 hg2 hf2 hres]

/-- C3 amended witness: an uncached call with draw 5 over two successes
selects element 5 mod 2 = 1. -/
theorem C3_amended_selection_witness :
    (TimeOracle.GetTimeNtp of0 [] "tx" ["t1", "t2"] 5).toOption.map Prod.fst =
      some "t2" := by
  have h := C3_amended_selection.1 [] "tx" ["t1", "t2"] 5 of0 rfl rfl (by decide)
  simpa [selectedOf] using h

/-- C7: with no cached entry and zero successful sources, GetTimeNtp fails
with the oracle error and the transaction aborts without writing a cache
entry; a subsequent call with the same requestID against the same store
re-runs the fan-out and succeeds when at least one source is reachable,
caching and returning the selected timestamp. -/
theorem C7_oracle_total_failure :
    (∀ (fail : String → Bool) (st : TimeOracle.OStore) (id : String) (k : Nat),
      TimeOracle.oget st id = none →
      TimeOracle.GetTimeNtp fail st id [] k =
        Except.error "Failed to get response from NTP servers, see log file") ∧
    (∀ (fail : String → Bool) (st : TimeOracle.OStore) (id : String)
        (res : List String) (k : Nat),
      TimeOracle.oget st id = none → res ≠ [] → fail id = false →
      TimeOracle.GetTimeNtp fail st id res k =
        Except.ok (selectedOf res k, TimeOracle.oput st id (selectedOf res k))) := by
  constructor
  · intro fail st id k hg
    unfold TimeOracle.GetTimeNtp
    rw [hg]
  · intro fail st id res k hg hres hf
    exact getTimeNtp_fresh fail st id res k hg hres hf

/-- C7 witness: the concrete empty fan-out fails, and the retry against the
unchanged empty store with one reachable source succeeds and caches. -/
theorem C7_oracle_total_failure_witness :
    TimeOracle.GetTimeNtp of0 [] "tx" [] 0 =
      Except.error "Failed to get response from NTP servers, see log file" ∧
    TimeOracle.GetTimeNtp of0 [] "tx" ["t1"] 0 =
      Except.ok ("t1", [("tx", "t1")]) := by
  constructor
  · exact C7_oracle_total_failure.1 of0 [] "tx" 0 rfl
  · exact C7_oracle_total_failure.2 of0 [] "tx" ["t1"] 0 rfl (by decide) rfl

/-- C9 (code bug in the source): when the ledger write of the bid placeholder
fails, Bid still returns the transaction id with a nil error and nothing is
stored: the PutState error is assigned to err and silently dropped, so the
failure is not surfaced to the caller. -/
theorem C9_bid_swallows_put_error :
    BitAuction.Bid fT ctx1 stOpen1 "a1" 100 = Except.ok ("tx1", stOpen1) ∧
    lget stOpen1 (LKey.comp "bid" ["a1", "tx1"]) = none :=
  ⟨rfl, rfl⟩

/-- C10: RecordTimeFromOracle of the core auction package returns the
constant string "2025-06-25 19:59:59.31560409 +0000 UTC" for every txID
without invoking any oracle or reading state, and consequently every FullBid
the core SubmitBid stores carries that constant's parsed instant as its
timestamp, whatever the call context. -/
theorem C10_constant_oracle_timestamp :
    (∀ txID : String,
      BitAuction.RecordTimeFromOracle txID = Except.ok oracleTimeString) ∧
    (∀ (fail : LKey → Bool) (c : Ctx) (st : Ledger) (aid txID : String)
        (st2 : Ledger) (b : FullBid),
      BitAuction.SubmitBid fail c st aid txID = Except.ok st2 →
      lget st2 (LKey.comp "fullbid" [aid, txID]) = some (LVal.fullBidV b) →
      b.timestamp = oracleNanos) := by
  constructor
  · intro txID
    rfl
  · intro fail c st aid txID st2 b hsub hget
    rw [submitBid_ok_iff] at hsub
    obtain ⟨a, p, _, _, _, _, _, _, rfl⟩ := hsub
    rw [lget_lput_self] at hget
    injection hget with h1
    injection h1 with h2
    rw [← h2]

/-- C10 witness: the concrete SubmitBid run stores a FullBid carrying the
constant's parsed instant. -/
theorem C10_constant_oracle_timestamp_witness :
    bid10.timestamp = oracleNanos ∧
    BitAuction.SubmitBid f0 ctx1 st10 "a1" "tx1" = Except.ok st10b :=
  ⟨C10_constant_oracle_timestamp.2 f0 ctx1 st10 "a1" "tx1" st10b bid10 rfl rfl,
   rfl⟩

/-- C8: CloseAuction of the chaincode-go contract rejects a caller other than
the seller; for the seller it fails with the state error when the status is
already "closed" or "ended"; and on success the stored record has status
"closed" with the winner and price untouched — no winner is computed. -/
theorem C8_close_auction (fail : LKey → Bool) (c : Ctx) (st : Ledger)
    (aid : String) (a : Auction)
    (hqa : QueryAuction st aid = Except.ok a) :
    (a.seller ≠ c.clientID →
      CGo.CloseAuction fail c st aid =
        Except.error "auction can only be closed by seller") ∧
    (a.seller = c.clientID → (a.status = "closed" ∨ a.status = "ended") →
      CGo.CloseAuction fail c st aid =
        Except.error "cannot close auction that is not open") ∧
    (∀ st2, CGo.CloseAuction fail c st aid = Except.ok st2 →
      a.seller = c.clientID ∧ a.status = "open" ∧
      lget st2 (LKey.plain aid) =
        some (LVal.auctionV { a with status := "closed" })) := by
  refine ⟨?_, ?_, ?_⟩
  · intro hsell
    unfold CGo.CloseAuction
    rw [hqa]
    dsimp only
    rw [if_pos hsell]
  · intro hsell hstat
    unfold CGo.CloseAuction
    rw [hqa]
    dsimp only
    rw [if_neg (by simp [hsell])]
    have hno : a.status ≠ "open" := by
      rcases hstat with h | h <;> simp [h]
    rw [if_pos hno]
  · intro st2 h
    rw [closeAuction_ok_iff] at h
    obtain ⟨a2, hqa2, hsell, hstat, hf, rfl⟩ := h
    rw [hqa] at hqa2
    injection hqa2 with h1
    subst h1
    exact ⟨hsell, hstat, lget_lput_self st _ _⟩

/-- C8 witness: a non-seller call is rejected, and closing an already closed
auction fails with the state error. -/
theorem C8_close_auction_witness :
    CGo.CloseAuction f0 ctx2 stOpen1 "a1" =
      Except.error "auction can only be closed by seller" ∧
    CGo.CloseAuction f0 ctx1 stClosed1 "a1" =
      Except.error "cannot close auction that is not open" :=
  ⟨(C8_close_auction f0 ctx2 stOpen1 "a1" auctionOpen rfl).1 (by decide),
   (C8_close_auction f0 ctx1 stClosed1 "a1" auClosed rfl).2.1 rfl (Or.inl rfl)⟩

/-- C6 counterexample: the chaincode-go EndAuction, called by the seller on
an open auction with one bid strictly before the time limit, succeeds
instead of failing with a timing error — the source has no time-limit
check. -/
theorem C6_counterexample :
    ctx1.now < auBidsOpen.timelimit ∧
    (CGo.EndAuction f0 ctx1 stCg "a1").toOption.isSome = true := by
  constructor
  · decide
  · rfl

/-- C6 amended: for the bitAuction EndAuction the three error clauses hold in
the source's check order — a non-seller caller gets the authorization error;
the seller before the time limit gets the timing error; the seller after the
limit on an already "ended" auction gets the state error; and when all three
checks pass none of these errors can be returned.  The chaincode-go
EndAuction checks only the seller and the presence of bids: for the seller
with at least one bid and a working ledger it succeeds even before the time
limit or on an already ended auction. -/
theorem C6_amended_end_errors :
    (∀ (fail : LKey → Bool) (c : Ctx) (st : Ledger) (aid : String) (a : Auction),
      QueryAuction st aid = Except.ok a →
      (a.seller ≠ c.clientID →
        BitAuction.EndAuction fail c st aid =
          Except.error "Auction can only be ended by the seller") ∧
      (a.seller = c.clientID → c.now < a.timelimit →
        BitAuction.EndAuction fail c st aid =
          Except.error "Cannot end auction before time limit has passed") ∧
      (a.seller = c.clientID → ¬ c.now < a.timelimit → a.status = "ended" →
        BitAuction.EndAuction fail c st aid =
          Except.error "auction has already been ended") ∧
      (a.seller = c.clientID → ¬ c.now < a.timelimit → a.status ≠ "ended" →
        ∀ e, BitAuction.EndAuction fail c st aid = Except.error e →
          e ≠ "Auction can only be ended by the seller" ∧
          e ≠ "Cannot end auction before time limit has passed" ∧
          e ≠ "auction has already been ended")) ∧
    (∀ (fail : LKey → Bool) (c : Ctx) (st : Ledger) (aid : String) (a : Auction),
      QueryAuction st aid = Except.ok a → a.seller = c.clientID →
      a.bids ≠ [] → fail (LKey.plain aid) = false →
      (CGo.EndAuction fail c st aid).toOption.isSome = true) := by
  constructor
  · intro fail c st aid a hqa
    refine ⟨?_, ?_, ?_, ?_⟩
    · intro hsell
      unfold BitAuction.EndAuction
      rw [hqa]
      dsimp only
      rw [if_pos hsell]
    · intro hsell ht
      unfold BitAuction.EndAuction
      rw [hqa]
      dsimp only
      rw [if_neg (by simp [hsell]), if_pos ht]
    · intro hsell ht hstat
      unfold BitAuction.EndAuction
      rw [hqa]
      dsimp only
      rw [if_neg (by simp [hsell]), if_neg ht, if_pos hstat]
    · intro hsell ht hstat e herr
      rcases endAuction_error_shape fail c st aid a e hqa hsell ht hstat herr with
        ⟨e1, rfl⟩ | rfl
      · refine ⟨?_, ?_, ?_⟩ <;>
        · intro heq
          have hd := congrArg String.data heq
          rw [String.data_append] at hd
          exact append_ne_of_head_ne _ _ _ _ _ (by decide) hd
      · refine ⟨?_, ?_, ?_⟩ <;> decide
  · intro fail c st aid a hqa hsell hbids hf
    rw [cgoEndAuction_ok fail c st aid a hqa hsell hbids hf]
    rfl

/-- C6 amended witness: the seller before the time limit gets the timing
error from the bitAuction EndAuction, while the chaincode-go EndAuction
succeeds in the same situation. -/
theorem C6_amended_end_errors_witness :
    BitAuction.EndAuction f0 ctx1 stOpen1 "a1" =
      Except.error "Cannot end auction before time limit has passed" ∧
    (CGo.EndAuction f0 ctx1 stCg "a1").toOption.isSome = true :=
  ⟨((C6_amended_end_errors.1 f0 ctx1 stOpen1 "a1" auctionOpen rfl).2.1) rfl
      (by decide),
   C6_amended_end_errors.2 f0 ctx1 stCg "a1" auBidsOpen rfl rfl (by decide) rfl⟩

/-- C4 counterexample: the chaincode-go SubmitBid appends to the Bids array,
so repeating the same requestID while the auction is open succeeds and
duplicates the revealed bid instead of rejecting or leaving the collection
unchanged. -/
theorem C4_counterexample :
    CGo.SubmitBid f0 ctx1 st4 "a1" "tx1" (Except.ok oracleTimeString) =
      Except.ok st4b ∧
    CGo.SubmitBid f0 ctx1 st4b "a1" "tx1" (Except.ok oracleTimeString) =
      Except.ok st4c ∧
    (QueryAuction st4b "a1").toOption.map Auction.bids = some [bid4] ∧
    (QueryAuction st4c "a1").toOption.map Auction.bids = some [bid4, bid4] :=
  ⟨rfl, rfl, rfl, rfl⟩

/-- C4 amended: the bitAuction SubmitBid stores the revealed bid under the
composite key (fullbid, auctionID, requestID), so a repeat call by the same
bidder and organization is either rejected or rewrites the identical record
in place: whenever it succeeds, the ledger — and hence the stored collection
of FullBid records — is exactly the post-first-call ledger. -/
theorem C4_amended_idempotent (fail fail2 : LKey → Bool) (c c2 : Ctx)
    (st st1 : Ledger) (aid txID : String)
    (h1 : BitAuction.SubmitBid fail c st aid txID = Except.ok st1)
    (hid : c2.clientID = c.clientID) (hmsp : c2.mspID = c.mspID) :
    ∀ st2, BitAuction.SubmitBid fail2 c2 st1 aid txID = Except.ok st2 →
      st2 = st1 := by
  intro st2 h2
  rw [submitBid_ok_iff] at h1 h2
  obtain ⟨a, p, hqa, hs, ht, hb, hp, hf, rfl⟩ := h1
  obtain ⟨a2, p2, hqa2, hs2, ht2, hb2, hp2, hf2, rfl⟩ := h2
  have hkey : LKey.comp "bid" [aid, txID] ≠ LKey.comp "fullbid" [aid, txID] := by
    simp
  rw [lget_lput_ne st _ _ _ hkey, hb] at hb2
  injection hb2 with h3
  injection h3 with h4
  rw [hid, hmsp, ← h4]
  exact lput_lput_same st _ _

/-- C4 amended witness: repeating the concrete SubmitBid run leaves the
ledger exactly as after the first call. -/
theorem C4_amended_idempotent_witness :
    BitAuction.SubmitBid f0 ctx1 st10b "a1" "tx1" = Except.ok st10b ∧
    st10b = st10b :=
  ⟨rfl, C4_amended_idempotent f0 f0 ctx1 ctx1 st10 st10b "a1" "tx1" rfl rfl rfl
    st10b rfl⟩

/-- C5 counterexample: CreateAuction performs no existence check, so calling
it with the id of an already "ended" auction succeeds and resets the stored
record to status "open" with winner "" and price 0 — the status moves
backward and the resolved winner and price are lost. -/
theorem C5_counterexample :
    (lookupAuction stEnded5 "a1").map Auction.status = some "ended" ∧
    ((BitAuction.CreateAuction f0 ctx1 stEnded5 "a1" "item"
        "2026-01-01T00:00:00Z" "" "").toOption.bind
      (fun st2 => (lookupAuction st2 "a1").map
        (fun a => (a.status, a.winner, a.price)))) = some ("open", "", 0) :=
  ⟨rfl, rfl⟩

/-- C5 amended: every bitAuction operation except a CreateAuction reusing an
existing auction id preserves the record invariant — under every step (with
CreateAuction restricted to fresh ids) the stored status only advances
through the rank open, closed, ended and a record that is already "ended" is
never changed; and when EndAuction succeeds on a ledger whose stored bids
all have positive price, a nonempty bidder and the valid flag set (as every
bid stored by SubmitBid does), the resulting record satisfies winner = "" iff
price = 0 iff there were no stored bids. -/
theorem C5_amended_invariant :
    (∀ st st2, BitStep st st2 → PreservesAuctions st st2) ∧
    (∀ (fail : LKey → Bool) (c : Ctx) (st st2 : Ledger) (aid : String)
        (a2 : Auction) (bids : List FullBid),
      BitAuction.EndAuction fail c st aid = Except.ok st2 →
      BitAuction.QueryBids st aid = Except.ok bids →
      (∀ b ∈ bids, 0 < b.price ∧ b.bidder ≠ "" ∧ b.valid = true) →
      lookupAuction st2 aid = some a2 →
      ((a2.winner = "" ↔ a2.price = 0) ∧ (a2.winner = "" ↔ bids = []))) := by
  constructor
  · intro st st2 hstep
    cases hstep with
    | create fail c _ _ aid item tl desc pic hfresh hok =>
      rw [createAuction_ok_iff] at hok
      obtain ⟨t, hparse, hf, rfl⟩ := hok
      intro id a a2 hla hla2
      by_cases hidq : id = aid
      · subst hidq
        unfold lookupAuction at hla
        rw [hfresh] at hla
        cases hla
      · unfold lookupAuction at hla hla2
        rw [lget_lput_ne st _ _ _ (by simp [hidq])] at hla2
        rw [hla] at hla2
        injection hla2 with h1
        subst h1
        exact ⟨le_refl _, fun _ => rfl⟩
    | bid fail c _ _ aid price t hok =>
      rcases bid_ok_state fail c st aid price t st2 hok with rfl | rfl
      · intro id a a2 hla hla2
        rw [hla] at hla2
        injection hla2 with h1
        subst h1
        exact ⟨le_refl _, fun _ => rfl⟩
      · intro id a a2 hla hla2
        unfold lookupAuction at hla hla2
        rw [lget_lput_ne st _ _ _ (fun h => LKey.noConfusion h)] at hla2
        rw [hla] at hla2
        injection hla2 with h1
        subst h1
        exact ⟨le_refl _, fun _ => rfl⟩
    | submit fail c _ _ aid txID hok =>
      rw [submitBid_ok_iff] at hok
      obtain ⟨a0, p, hqa, hs, ht, hb, hp, hf, rfl⟩ := hok
      intro id a a2 hla hla2
      unfold lookupAuction at hla hla2
      rw [lget_lput_ne st _ _ _ (fun h => LKey.noConfusion h)] at hla2
      rw [hla] at hla2
      injection hla2 with h1
      subst h1
      exact ⟨le_refl _, fun _ => rfl⟩
    | endA fail c _ _ aid hok =>
      rw [endAuction_ok_iff] at hok
      obtain ⟨a0, hb, hqa, hsell, ht, hstat, hgb, hf, rfl⟩ := hok
      intro id a a2 hla hla2
      by_cases hidq : id = aid
      · subst hidq
        rw [queryAuction_ok_iff] at hqa
        unfold lookupAuction at hla hla2
        rw [hqa] at hla
        rw [lget_lput_self] at hla2
        simp at hla hla2
        subst hla
        subst hla2
        have hendst : ∀ (x : Auction) (hbb : Option FullBid),
            (BitAuction.endedAuction x hbb).status = "ended" := by
          intro x hbb
          cases hbb <;> rfl
        constructor
        · rw [hendst]
          exact statusRank_le_two _
        · intro hend
          exact absurd hend hstat
      · unfold lookupAuction at hla hla2
        rw [lget_lput_ne st _ _ _ (by simp [hidq])] at hla2
        rw [hla] at hla2
        injection hla2 with h1
        subst h1
        exact ⟨le_refl _, fun _ => rfl⟩
  · intro fail c st st2 aid a2 bids hend hq hwf hla2
    rw [endAuction_ok_iff] at hend
    obtain ⟨a0, hb, hqa, hsell, ht, hstat, hgb, hf, rfl⟩ := hend
    unfold lookupAuction at hla2
    rw [lget_lput_self] at hla2
    simp at hla2
    subst hla2
    unfold BitAuction.GetHb at hgb
    rw [hq] at hgb
    dsimp only at hgb
    cases bids with
    | nil =>
      simp at hgb
      subst hgb
      simp [BitAuction.endedAuction]
    | cons b0 rest =>
      simp at hgb
      subst hgb
      have hmem : (b0 :: rest).foldl BitAuction.selectHigher b0 ∈ b0 :: rest := by
        rcases foldl_selectHigher_mem (b0 :: rest) b0 with h1 | h1
        · rw [h1]; exact List.mem_cons_self _ _
        · exact h1
      obtain ⟨hpos, hbidder, _⟩ := hwf _ hmem
      simp only [List.foldl_cons] at hpos hbidder
      constructor
      · dsimp only [BitAuction.endedAuction]
        constructor
        · intro hwin; exact absurd hwin hbidder
        · intro hpr; exact absurd hpr (by omega)
      · dsimp only [BitAuction.endedAuction]
        constructor
        · intro hwin; exact absurd hwin hbidder
        · intro hcons; cases hcons

/-- C5 amended witness: a concrete placeholder-bid step preserves the stored
auction, and the concrete EndAuction run on three well-formed bids resolves
a nonempty winner with nonzero price. -/
theorem C5_amended_invariant_witness :
    statusRank auctionOpen.status ≤ statusRank auctionOpen.status ∧
    ((endedA5.winner = "" ↔ endedA5.price = 0) ∧
      (endedA5.winner = "" ↔ ([bidA, bidB, bidC] : List FullBid) = [])) :=
  ⟨(C5_amended_invariant.1 stOpen1 st10
      (BitStep.bid f0 ctx1 stOpen1 st10 "a1" 100 "tx1" rfl) "a1"
      auctionOpen auctionOpen rfl rfl).1,
   C5_amended_invariant.2 f0 ctxSeller stBids stEnded1 "a1" endedA5
     [bidA, bidB, bidC] rfl rfl (by decide) rfl⟩

end HLF
